import Mathlib

set_option maxRecDepth 100000

/-!
Verification of the citation-network subsystem of the aira_backend repository
(`app/services/citation_service.py`): the BFS citation-network builder
`build_citation_network` and the bibliometric `calculate_paper_influence`.

The data model mirrors `app/db/models.py` (Paper, Citation) restricted to the
fields the citation service reads.  Machine floats in the source
(strength, influence_score) are modelled as rationals; paper ids (UUID strings)
as opaque strings; datetimes as whole-day integer counts.
-/

namespace AiraBackend

/-- An author entry of the JSON `authors` column; the service reads
`author.get("name", "")`. -/
structure Author where
  name : String
  affiliation : String
deriving Repr, DecidableEq

/-- The fields of the `Paper` model read by the citation service. -/
structure Paper where
  id : String
  title : String
  authors : List Author
  publication_year : Option Int
  publication_date : Option Int
  citation_count : Int
  influence_score : ℚ
deriving Repr, DecidableEq

/-- The fields of the `Citation` model read by the citation service.
`context` is a nullable Text column. -/
structure Citation where
  citing_paper_id : String
  cited_paper_id : String
  context : Option String
  strength : ℚ
deriving Repr, DecidableEq

/-- The relational store the service queries: the `papers` and `citations`
tables. -/
structure Store where
  papers : List Paper
  citations : List Citation
deriving Repr

/-- `db.query(Paper).filter(Paper.id == pid).first()`. -/
def Store.findPaper (s : Store) (pid : String) : Option Paper :=
  s.papers.find? (fun p => p.id == pid)

/-- `db.query(Citation).filter(Citation.cited_paper_id == pid).all()`:
citations whose cited endpoint is `pid` (papers citing `pid`). -/
def Store.citingCitations (s : Store) (pid : String) : List Citation :=
  s.citations.filter (fun c => c.cited_paper_id == pid)

/-- `db.query(Citation).filter(Citation.citing_paper_id == pid).all()`:
citations whose citing endpoint is `pid` (papers cited by `pid`). -/
def Store.citedCitations (s : Store) (pid : String) : List Citation :=
  s.citations.filter (fun c => c.citing_paper_id == pid)

/-- A node record of the network, as assembled at lines 55-64 of
`citation_service.py`. -/
structure NodeData where
  id : String
  title : String
  authors : List String
  publication_year : Option Int
  citation_count : Int
  influence_score : ℚ
  is_center : Bool
  depth : Nat
deriving Repr, DecidableEq

/-- An edge record of the network (the dicts appended at lines 77-83 and
98-104); the source key `"type"` is rendered as `rel`. -/
structure EdgeData where
  source : String
  target : String
  strength : ℚ
  context : String
  rel : String
deriving Repr, DecidableEq

/-- The node dict entry built for `paper` at id `pid`, discovered at `d`. -/
def mkNode (paper : Paper) (pid center : String) (d : Nat) : NodeData :=
  { id := pid
    title := paper.title
    authors := paper.authors.map (fun a => a.name)
    publication_year := paper.publication_year
    citation_count := paper.citation_count
    influence_score := paper.influence_score
    is_center := pid == center
    depth := d }

/-- `citation.context[:100] if citation.context else ""`. -/
def truncContext (c : Citation) : String :=
  (c.context.getD "").take 100

/-- Edges emitted for the citations citing `pid` (source = citing paper). -/
def citingEdges (pid : String) (cits : List Citation) : List EdgeData :=
  cits.map (fun c =>
    { source := c.citing_paper_id, target := pid, strength := c.strength
      context := truncContext c, rel := "cites" })

/-- Edges emitted for the citations made by `pid` (target = cited paper). -/
def citedEdges (pid : String) (cits : List Citation) : List EdgeData :=
  cits.map (fun c =>
    { source := pid, target := c.cited_paper_id, strength := c.strength
      context := truncContext c, rel := "cites" })

/-- Queue entries appended for unvisited citing papers, at depth `d + 1`. -/
def enqueueCiting (visited : List String) (d : Nat) (cits : List Citation) :
    List (String × Nat) :=
  (cits.filter (fun c => !(visited.contains c.citing_paper_id))).map
    (fun c => (c.citing_paper_id, d + 1))

/-- Queue entries appended for unvisited cited papers, at depth `d + 1`. -/
def enqueueCited (visited : List String) (d : Nat) (cits : List Citation) :
    List (String × Nat) :=
  (cits.filter (fun c => !(visited.contains c.cited_paper_id))).map
    (fun c => (c.cited_paper_id, d + 1))

/-- The mutable state of the BFS loop: the `nodes` dict (kept as its insertion
sequence; keys are unique because insertion is guarded by `visited`), the
`edges` list, the `visited` set and the FIFO `queue`. -/
structure BFSState where
  nodes : List NodeData
  edges : List EdgeData
  visited : List String
  queue : List (String × Nat)
deriving Repr, DecidableEq

/-- Outcome of one iteration of the `while` loop. -/
inductive StepOut where
  | halt (st : BFSState)
  | next (st : BFSState)
deriving Repr, DecidableEq

/-- Successor state when the dequeued `pid` at depth `d` is fresh, its paper
row exists, and `d < depth`: the node is added and both directions of
citations are expanded (edges emitted, unvisited neighbors enqueued at
`d + 1`). -/
def expandState (store : Store) (center : String) (st : BFSState)
    (pid : String) (d : Nat) (rest : List (String × Nat)) (paper : Paper) :
    BFSState :=
  let visited' := pid :: st.visited
  let citing := store.citingCitations pid
  let cited := store.citedCitations pid
  { nodes := st.nodes ++ [mkNode paper pid center d]
    edges := st.edges ++ citingEdges pid citing ++ citedEdges pid cited
    visited := visited'
    queue := rest ++ enqueueCiting visited' d citing
              ++ enqueueCited visited' d cited }

/-- Successor state when the dequeued `pid` at depth `d` is fresh, its paper
row exists, but `d < depth` fails: the node is added without expansion. -/
def leafState (center : String) (st : BFSState) (pid : String) (d : Nat)
    (rest : List (String × Nat)) (paper : Paper) : BFSState :=
  { st with nodes := st.nodes ++ [mkNode paper pid center d]
            visited := pid :: st.visited
            queue := rest }

/-- One iteration of the `while queue and len(nodes) < max_papers` loop of
`build_citation_network` (lines 41-108 of `citation_service.py`). -/
def bfsStep (store : Store) (center : String) (depth maxPapers : Nat)
    (st : BFSState) : StepOut :=
  match st.queue with
  | [] => .halt st
  | (pid, d) :: rest =>
    if maxPapers ≤ st.nodes.length then .halt st
    else if pid ∈ st.visited ∨ depth < d then
      .next { st with queue := rest }
    else
      match store.findPaper pid with
      | none => .next { st with visited := pid :: st.visited, queue := rest }
      | some paper =>
        if d < depth then .next (expandState store center st pid d rest paper)
        else .next (leafState center st pid d rest paper)

/-- Fuel-indexed iteration of `bfsStep`; `none` means the fuel ran out before
the loop reached its exit condition (shown impossible for the fuel used by
`bfsRun`). -/
def bfsLoop (store : Store) (center : String) (depth maxPapers : Nat) :
    Nat → BFSState → Option BFSState
  | 0, _ => none
  | fuel + 1, st =>
    match bfsStep store center depth maxPapers st with
    | .halt s => some s
    | .next s => bfsLoop store center depth maxPapers fuel s

/-- The initial loop state: `queue = [(center_paper_id, 0)]`. -/
def initialState (center : String) : BFSState :=
  { nodes := [], edges := [], visited := [], queue := [(center, 0)] }

/-- Fuel sufficient for the loop to reach its exit condition on any store
(proved below): each id is expanded at most once and each expansion enqueues
at most `2 * |citations|` entries. -/
def bfsFuel (store : Store) : Nat :=
  (2 * store.citations.length + 2) * (2 * store.citations.length + 1) + 2

/-- Run the BFS loop from the seeded queue. -/
def bfsRun (store : Store) (center : String) (depth maxPapers : Nat) :
    Option BFSState :=
  bfsLoop store center depth maxPapers (bfsFuel store) (initialState center)

/-- The `CitationNetwork` value constructed at lines 113-120 of
`citation_service.py`. -/
structure CitationNetwork where
  nodes : List NodeData
  edges : List EdgeData
  center_paper_id : String
  depth : Nat
  total_papers : Nat
  total_citations : Nat
deriving Repr, DecidableEq

/-- Result of `build_citation_network`: either the network, or the re-raised
`ValueError("Paper not found: ...")` when the center paper does not exist. -/
inductive BuildResult where
  | ok (network : CitationNetwork)
  | notFound (paper_id : String)
deriving Repr, DecidableEq

/-- `build_citation_network(center_paper_id, depth, max_papers)`
(lines 18-131 of `citation_service.py`).  The outer `Option` is the fuel
bound of the embedding only: `none` never occurs. -/
def build_citation_network (store : Store) (center : String)
    (depth maxPapers : Nat) : Option BuildResult :=
  match store.findPaper center with
  | none => some (.notFound center)
  | some _ =>
    (bfsRun store center depth maxPapers).map (fun st =>
      .ok { nodes := st.nodes
            edges := st.edges
            center_paper_id := center
            depth := depth
            total_papers := st.nodes.length
            total_citations := st.edges.length })

/-! ### Influence calculator (`calculate_paper_influence`, lines 209-283) -/

/-- A Python exception escaping a database operation or raised by the service
body: the `ValueError("Paper not found: ...")`, or a store failure. -/
inductive PyErr where
  | valueError (msg : String)
  | storeFailure (msg : String)
deriving Repr, DecidableEq

/-- The database operations issued by `calculate_paper_influence`, each of
which may raise.  `nowDays` stands for `datetime.now()`, in whole days. -/
structure Db where
  findPaperQ : String → Except PyErr (Option Paper)
  countDirectQ : String → Except PyErr Nat
  countSecondOrderQ : String → Except PyErr Nat
  citingPapersQ : String → Except PyErr (List Paper)
  nowDays : Int

/-- The list-backed database: each query of `calculate_paper_influence`
evaluated over the relational store, never failing.
`countDirectQ` counts citations whose cited endpoint is the paper;
`countSecondOrderQ` counts citations whose cited endpoint is among the citing
endpoints of the direct citations; `citingPapersQ` is the join returning the
paper row of each direct citation's citing endpoint. -/
def Db.ofStore (s : Store) (now : Int) : Db :=
  { findPaperQ := fun pid => .ok (s.findPaper pid)
    countDirectQ := fun pid => .ok (s.citingCitations pid).length
    countSecondOrderQ := fun pid => .ok
      (s.citations.filter (fun c =>
        ((s.citingCitations pid).map (fun d => d.citing_paper_id)).contains
          c.cited_paper_id)).length
    citingPapersQ := fun pid => .ok
      ((s.citingCitations pid).filterMap (fun c => s.findPaper c.citing_paper_id))
    nowDays := now }

/-- `citing_citation_counts.sort(reverse=True)`: the citation counts in
descending order. -/
def sortDesc (l : List Int) : List Int :=
  List.insertionSort (fun a b => a ≥ b) l

/-- The h-index loop of lines 246-251: `h = 0; for i, count in enumerate(...):
if count >= i + 1: h = i + 1 else: break`. -/
def hIndexLoop : List Int → Nat → Nat → Nat
  | [], _, h => h
  | c :: rest, i, h =>
    if ((i : Int) + 1) ≤ c then hIndexLoop rest (i + 1) (i + 1) else h

/-- Python's builtin `min` on two numbers, as an executable conditional. -/
def pymin (a b : ℚ) : ℚ := if a ≤ b then a else b

/-- Length of the maximal prefix of `l` accepted by the h-index loop when the
enumeration starts at rank `i`: position `j` of the prefix satisfies
`l[j] ≥ i + j + 1`. -/
def qualPrefixLen : List Int → Nat → Nat
  | [], _ => 0
  | c :: rest, i =>
    if ((i : Int) + 1) ≤ c then qualPrefixLen rest (i + 1) + 1 else 0

/-- The metrics dict returned by `calculate_paper_influence` on success. -/
structure InfluenceMetrics where
  paper_id : String
  direct_citations : Nat
  second_order_citations : Nat
  h_index : Nat
  influence_score : ℚ
  publication_age_years : Int
  citation_rate_per_year : ℚ
  percentile_rank : ℚ
  field_normalized_score : ℚ
deriving Repr, DecidableEq

/-- The body of the `try` block of `calculate_paper_influence`: the value it
would return, or the exception reaching the `except` clause.  Each database
operation either yields its result or propagates its exception. -/
def calcInfluenceBody (db : Db) (pid : String) : Except PyErr InfluenceMetrics :=
  match db.findPaperQ pid with
  | .error e => .error e
  | .ok none => .error (.valueError ("Paper not found: " ++ pid))
  | .ok (some paper) =>
    match db.countDirectQ pid with
    | .error e => .error e
    | .ok direct =>
      match db.countSecondOrderQ pid with
      | .error e => .error e
      | .ok secondOrder =>
        match db.citingPapersQ pid with
        | .error e => .error e
        | .ok citingPapers =>
          let counts := sortDesc (citingPapers.map (fun p => p.citation_count))
          let h := hIndexLoop counts 0 0
          let influence : ℚ :=
            pymin (((direct : ℚ) * 0.5 + (secondOrder : ℚ) * 0.3 + (h : ℚ) * 0.2)
              / 100) 1.0
          let age : Int :=
            match paper.publication_date with
            | none => 0
            | some pubDay => (db.nowDays - pubDay).fdiv 365
          let rate : ℚ :=
            if 0 < age then (direct : ℚ) / ((max age 1 : Int) : ℚ) else 0
          .ok { paper_id := pid
                direct_citations := direct
                second_order_citations := secondOrder
                h_index := h
                influence_score := influence
                publication_age_years := age
                citation_rate_per_year := rate
                percentile_rank := 0
                field_normalized_score := 0 }

/-- Result of `calculate_paper_influence`: the metrics dict, the empty dict
`{}` produced by the `except` clause, or an exception escaping the call.  The
last never occurs, because the `except Exception` clause catches everything. -/
inductive InfluenceResult where
  | metrics (m : InfluenceMetrics)
  | emptyDict
  | raised (e : PyErr)
deriving Repr, DecidableEq

/-- Whether an exception escaped the call. -/
def InfluenceResult.isRaised : InfluenceResult → Bool
  | .raised _ => true
  | _ => false

/-- `calculate_paper_influence(paper_id)` (lines 209-283 of
`citation_service.py`): run the `try` body; on any exception, log and
`return {}`. -/
def calculate_paper_influence (db : Db) (pid : String) : InfluenceResult :=
  match calcInfluenceBody db pid with
  | .ok m => .metrics m
  | .error _ => .emptyDict

/-- Modelled from the spec (§4.2, for comparison with the h-index loop of the
source): "sort the citation_count of each direct citer descending; the value h
is the largest index i (1-based) such that the i-th citer's citation_count ≥ i",
0 when no index qualifies. -/
def spec_h_index (l : List Int) : Nat :=
  ((List.range (l.length + 1)).filter
    (fun (i : Nat) => decide (1 ≤ i ∧ (i : Int) ≤ l.getD (i - 1) 0))).foldr max 0

/-! ### Concrete fixtures used by witnesses and counterexamples -/

/-- A paper row with the given id and cached citation count. -/
def testPaper (pid : String) (cc : Int) : Paper :=
  { id := pid, title := pid, authors := [], publication_year := none
    publication_date := none, citation_count := cc, influence_score := 0 }

/-- A citation row `x cites y`. -/
def testCitation (x y : String) : Citation :=
  { citing_paper_id := x, cited_paper_id := y, context := none, strength := 1 }

/-- Two papers, one citation `b → a`. -/
def storeAB : Store :=
  { papers := [testPaper "a" 0, testPaper "b" 0]
    citations := [testCitation "b" "a"] }

/-- `storeAB` with the `papers` table rows in the opposite order (the
`citations` table unchanged). -/
def storeBA : Store :=
  { papers := [testPaper "b" 0, testPaper "a" 0]
    citations := [testCitation "b" "a"] }

/-- The spec §8 scenario: paper `a` is cited by `b` and `c`; `b` is cited by
`d`. -/
def storeScenario : Store :=
  { papers := [testPaper "a" 0, testPaper "b" 0, testPaper "c" 0, testPaper "d" 0]
    citations := [testCitation "b" "a", testCitation "c" "a", testCitation "d" "b"] }

/-- Paper `z` cited by five papers whose cached citation counts are
10, 8, 5, 4, 3. -/
def storeHIndex : Store :=
  { papers := [testPaper "z" 0, testPaper "p1" 10, testPaper "p2" 8,
               testPaper "p3" 5, testPaper "p4" 4, testPaper "p5" 3]
    citations := [testCitation "p1" "z", testCitation "p2" "z",
                  testCitation "p3" "z", testCitation "p4" "z",
                  testCitation "p5" "z"] }

/-- An empty relational store. -/
def storeEmpty : Store := { papers := [], citations := [] }

/-- The node record produced for a `testPaper` with zero citation count. -/
def testNode (pid : String) (ctr : Bool) (d : Nat) : NodeData :=
  { id := pid, title := pid, authors := [], publication_year := none
    citation_count := 0, influence_score := 0, is_center := ctr, depth := d }

/-- The edge record produced for a `testCitation`. -/
def testEdge (x y : String) : EdgeData :=
  { source := x, target := y, strength := 1, context := "", rel := "cites" }

/-- The network `build_citation_network(storeScenario, "a", 2, 10)` produces. -/
def networkScenario : CitationNetwork :=
  { nodes := [testNode "a" true 0, testNode "b" false 1,
              testNode "c" false 1, testNode "d" false 2]
    edges := [testEdge "b" "a", testEdge "c" "a", testEdge "d" "b",
              testEdge "b" "a", testEdge "c" "a"]
    center_paper_id := "a", depth := 2, total_papers := 4, total_citations := 5 }

/-- The direct citers of `z` in `storeHIndex`, in store order. -/
def citersHIndex : List Paper :=
  [testPaper "p1" 10, testPaper "p2" 8, testPaper "p3" 5,
   testPaper "p4" 4, testPaper "p5" 3]

/-- The metrics `calculate_paper_influence` computes for `z` on
`storeHIndex`. -/
def metricsHIndex : InfluenceMetrics :=
  { paper_id := "z", direct_citations := 5, second_order_citations := 0
    h_index := 4, influence_score := 33/1000, publication_age_years := 0
    citation_rate_per_year := 0, percentile_rank := 0
    field_normalized_score := 0 }

/-- All paper ids the BFS loop can ever enqueue: the center and the endpoints
of every citation row. -/
def idUniverse (store : Store) (center : String) : Finset String :=
  insert center (store.citations.foldr
    (fun c acc => insert c.citing_paper_id (insert c.cited_paper_id acc)) ∅)

/-- Decreasing measure of the BFS loop: ids not yet visited, weighted by the
largest possible queue growth of one expansion, plus the queue length. -/
def bfsMeasure (store : Store) (center : String) (st : BFSState) : Nat :=
  (idUniverse store center \ st.visited.toFinset).card *
    (2 * store.citations.length + 1) + st.queue.length

/-- A database on which every operation fails with a connectivity error. -/
def dbBroken : Db :=
  { findPaperQ := fun _ => .error (.storeFailure "connection lost")
    countDirectQ := fun _ => .error (.storeFailure "connection lost")
    countSecondOrderQ := fun _ => .error (.storeFailure "connection lost")
    citingPapersQ := fun _ => .error (.storeFailure "connection lost")
    nowDays := 0 }

/-- Loop invariant for edge closure: every queued entry references an existing
paper and respects the depth limit, every visited id has a node, and every
edge endpoint is either a node or still queued. -/
def closureInv (store : Store) (depth : Nat) (st : BFSState) : Prop :=
  (∀ pd ∈ st.queue, (store.findPaper pd.1).isSome ∧ pd.2 ≤ depth) ∧
  (∀ pid ∈ st.visited, ∃ n ∈ st.nodes, n.id = pid) ∧
  (∀ ed ∈ st.edges,
    ((∃ n ∈ st.nodes, n.id = ed.source) ∨ ∃ dq, (ed.source, dq) ∈ st.queue) ∧
    ((∃ n ∈ st.nodes, n.id = ed.target) ∨ ∃ dq, (ed.target, dq) ∈ st.queue))

/-! ### Generic lemmas about the BFS loop -/

section BFSLemmas

variable {store : Store} {center : String} {depth maxPapers : Nat}

/-- A halting step returns the state unchanged, and halts exactly because the
queue is empty or the node cap is reached. -/
lemma bfsStep_halt_eq {st s : BFSState}
    (h : bfsStep store center depth maxPapers st = .halt s) :
    s = st ∧ (st.queue = [] ∨ maxPapers ≤ st.nodes.length) := by
  obtain ⟨nodes, edges, visited, queue⟩ := st
  rcases queue with _ | ⟨⟨pid, d⟩, rest⟩
  · simp only [bfsStep] at h
    exact ⟨(StepOut.halt.injEq _ _ ▸ h).symm, Or.inl rfl⟩
  · simp only [bfsStep] at h
    split at h
    · exact ⟨(StepOut.halt.injEq _ _ ▸ h).symm, Or.inr (by assumption)⟩
    · split at h
      · cases h
      · split at h
        · cases h
        · split at h <;> cases h

/-- Exhaustive description of a continuing step: the head of the queue is
dequeued and the state is transformed by exactly one of the four loop
branches. -/
lemma bfsStep_next_cases {st st1 : BFSState}
    (h : bfsStep store center depth maxPapers st = .next st1) :
    ∃ pid d rest, st.queue = (pid, d) :: rest ∧ st.nodes.length < maxPapers ∧
      (((pid ∈ st.visited ∨ depth < d) ∧ st1 = { st with queue := rest }) ∨
       (pid ∉ st.visited ∧ d ≤ depth ∧
         ((store.findPaper pid = none ∧
             st1 = { st with visited := pid :: st.visited, queue := rest }) ∨
          (∃ paper, store.findPaper pid = some paper ∧
            ((d < depth ∧ st1 = expandState store center st pid d rest paper) ∨
             (d = depth ∧
               st1 = leafState center st pid d rest paper)))))) := by
  obtain ⟨nodes, edges, visited, queue⟩ := st
  rcases queue with _ | ⟨⟨pid, d⟩, rest⟩
  · simp only [bfsStep] at h; cases h
  · refine ⟨pid, d, rest, rfl, ?_⟩
    simp only [bfsStep] at h
    split at h
    · cases h
    · refine ⟨lt_of_not_le (by assumption), ?_⟩
      split at h
      · exact Or.inl ⟨by assumption, (StepOut.next.injEq _ _ ▸ h).symm⟩
      · rename_i hguard
        push_neg at hguard
        obtain ⟨hvis, hd⟩ := hguard
        refine Or.inr ⟨hvis, hd, ?_⟩
        split at h
        · exact Or.inl ⟨by assumption, (StepOut.next.injEq _ _ ▸ h).symm⟩
        · rename_i paper hfind
          refine Or.inr ⟨paper, hfind, ?_⟩
          split at h
          · exact Or.inl ⟨by assumption, (StepOut.next.injEq _ _ ▸ h).symm⟩
          · rename_i hnd
            exact Or.inr ⟨by omega, (StepOut.next.injEq _ _ ▸ h).symm⟩

/-- Any property preserved by continuing steps is carried from the initial
state of the loop to its final state. -/
lemma bfsLoop_invariant (P : BFSState → Prop)
    (hstep : ∀ st st1, bfsStep store center depth maxPapers st = .next st1 →
      P st → P st1) :
    ∀ fuel st st', P st →
      bfsLoop store center depth maxPapers fuel st = some st' → P st' := by
  intro fuel
  induction fuel with
  | zero => intro st st' _ h; simp [bfsLoop] at h
  | succ n ih =>
    intro st st' hP h
    rw [bfsLoop] at h
    rcases hs : bfsStep store center depth maxPapers st with s | s <;> rw [hs] at h
    · obtain ⟨rfl, -⟩ := bfsStep_halt_eq hs
      cases h; exact hP
    · exact ih s st' (hstep st s hs hP) h

/-- The loop only returns a state whose queue is drained or whose node count
has reached the cap. -/
lemma bfsLoop_final :
    ∀ fuel (st st' : BFSState),
      bfsLoop store center depth maxPapers fuel st = some st' →
      st'.queue = [] ∨ maxPapers ≤ st'.nodes.length := by
  intro fuel
  induction fuel with
  | zero => intro st st' h; simp [bfsLoop] at h
  | succ n ih =>
    intro st st' h
    rw [bfsLoop] at h
    rcases hs : bfsStep store center depth maxPapers st with s | s <;> rw [hs] at h
    · obtain ⟨rfl, hcond⟩ := bfsStep_halt_eq hs
      cases h; exact hcond
    · exact ih s st' h

/-- More fuel never changes a loop run that already finished. -/
lemma bfsLoop_mono :
    ∀ {f g : Nat} (st st' : BFSState), f ≤ g →
      bfsLoop store center depth maxPapers f st = some st' →
      bfsLoop store center depth maxPapers g st = some st' := by
  intro f
  induction f with
  | zero => intro g st st' _ h; simp [bfsLoop] at h
  | succ n ih =>
    intro g st st' hfg h
    rw [bfsLoop] at h
    obtain ⟨g', rfl⟩ : ∃ g', g = g' + 1 := ⟨g - 1, by omega⟩
    rw [bfsLoop]
    rcases hs : bfsStep store center depth maxPapers st with s | s
    · rw [hs] at h; exact h
    · rw [hs] at h; exact ih (g := g') s st' (by omega) h

/-! #### Termination of the BFS loop -/

lemma mem_idUniverse_center : center ∈ idUniverse store center :=
  Finset.mem_insert_self _ _

lemma mem_foldrInsert {l : List Citation} {c : Citation} (hc : c ∈ l) :
    c.citing_paper_id ∈ l.foldr
      (fun c acc => insert c.citing_paper_id (insert c.cited_paper_id acc))
      (∅ : Finset String) ∧
    c.cited_paper_id ∈ l.foldr
      (fun c acc => insert c.citing_paper_id (insert c.cited_paper_id acc))
      (∅ : Finset String) := by
  induction l with
  | nil => cases hc
  | cons d t ih =>
    rcases List.mem_cons.mp hc with rfl | h
    · constructor <;> simp
    · obtain ⟨h1, h2⟩ := ih h
      constructor <;> simp [h1, h2]

lemma mem_idUniverse_citing {c : Citation} (hc : c ∈ store.citations) :
    c.citing_paper_id ∈ idUniverse store center :=
  Finset.mem_insert_of_mem (mem_foldrInsert hc).1

lemma mem_idUniverse_cited {c : Citation} (hc : c ∈ store.citations) :
    c.cited_paper_id ∈ idUniverse store center :=
  Finset.mem_insert_of_mem (mem_foldrInsert hc).2

lemma card_foldrInsert_le (l : List Citation) :
    (l.foldr (fun c acc =>
      insert c.citing_paper_id (insert c.cited_paper_id acc))
      (∅ : Finset String)).card ≤ 2 * l.length := by
  induction l with
  | nil => simp
  | cons d t ih =>
    have h1 := Finset.card_insert_le d.citing_paper_id
      (insert d.cited_paper_id (t.foldr (fun c acc =>
        insert c.citing_paper_id (insert c.cited_paper_id acc))
        (∅ : Finset String)))
    have h2 := Finset.card_insert_le d.cited_paper_id
      (t.foldr (fun c acc =>
        insert c.citing_paper_id (insert c.cited_paper_id acc))
        (∅ : Finset String))
    simp only [List.foldr_cons, List.length_cons]
    omega

lemma card_idUniverse_le (s : Store) (c : String) :
    (idUniverse s c).card ≤ 2 * s.citations.length + 1 := by
  have h1 := Finset.card_insert_le c
    (s.citations.foldr (fun c acc =>
      insert c.citing_paper_id (insert c.cited_paper_id acc))
      (∅ : Finset String))
  have h2 := card_foldrInsert_le s.citations
  unfold idUniverse
  omega

lemma mem_enqueueCiting {v : List String} {d : Nat} {cits : List Citation}
    {p : String × Nat} (hp : p ∈ enqueueCiting v d cits) :
    ∃ c ∈ cits, p = (c.citing_paper_id, d + 1) := by
  unfold enqueueCiting at hp
  obtain ⟨c, hc, rfl⟩ := List.mem_map.mp hp
  exact ⟨c, (List.mem_filter.mp hc).1, rfl⟩

lemma mem_enqueueCited {v : List String} {d : Nat} {cits : List Citation}
    {p : String × Nat} (hp : p ∈ enqueueCited v d cits) :
    ∃ c ∈ cits, p = (c.cited_paper_id, d + 1) := by
  unfold enqueueCited at hp
  obtain ⟨c, hc, rfl⟩ := List.mem_map.mp hp
  exact ⟨c, (List.mem_filter.mp hc).1, rfl⟩

lemma length_enqueueCiting_le (v : List String) (d : Nat) (cits : List Citation) :
    (enqueueCiting v d cits).length ≤ cits.length := by
  unfold enqueueCiting
  rw [List.length_map]
  exact List.length_filter_le _ _

lemma length_enqueueCited_le (v : List String) (d : Nat) (cits : List Citation) :
    (enqueueCited v d cits).length ≤ cits.length := by
  unfold enqueueCited
  rw [List.length_map]
  exact List.length_filter_le _ _

lemma length_citingCitations_le (s : Store) (pid : String) :
    (s.citingCitations pid).length ≤ s.citations.length :=
  List.length_filter_le _ _

lemma length_citedCitations_le (s : Store) (pid : String) :
    (s.citedCitations pid).length ≤ s.citations.length :=
  List.length_filter_le _ _

lemma mem_citingCitations {s : Store} {pid : String} {c : Citation}
    (hc : c ∈ s.citingCitations pid) : c ∈ s.citations :=
  (List.mem_filter.mp hc).1

lemma mem_citedCitations {s : Store} {pid : String} {c : Citation}
    (hc : c ∈ s.citedCitations pid) : c ∈ s.citations :=
  (List.mem_filter.mp hc).1

/-- A continuing step keeps every queued id inside the id universe. -/
lemma queue_universe_step {st st1 : BFSState}
    (h : bfsStep store center depth maxPapers st = .next st1)
    (hq : ∀ p ∈ st.queue, p.1 ∈ idUniverse store center) :
    ∀ p ∈ st1.queue, p.1 ∈ idUniverse store center := by
  obtain ⟨pid, d, rest, hqe, hcap, hbr⟩ := bfsStep_next_cases h
  have hrest : ∀ p ∈ rest, p.1 ∈ idUniverse store center := by
    intro p hp
    exact hq p (hqe ▸ List.mem_cons_of_mem _ hp)
  rcases hbr with ⟨-, rfl⟩ | ⟨-, -, ⟨-, rfl⟩ | ⟨paper, hfind, ⟨-, rfl⟩ | ⟨-, rfl⟩⟩⟩
  · exact hrest
  · exact hrest
  · intro p hp
    unfold expandState at hp
    simp only [List.mem_append] at hp
    rcases hp with (hp | hp) | hp
    · exact hrest p hp
    · obtain ⟨c, hc, rfl⟩ := mem_enqueueCiting hp
      exact mem_idUniverse_citing (mem_citingCitations hc)
    · obtain ⟨c, hc, rfl⟩ := mem_enqueueCited hp
      exact mem_idUniverse_cited (mem_citedCitations hc)
  · exact hrest

/-- Arithmetic core of the expansion case of the measure decrease. -/
lemma expand_measure_bound (k c : Nat) (hpos : 1 ≤ k) :
    (k - 1) * (2 * c + 1) + 2 * c < k * (2 * c + 1) + 1 := by
  cases k with
  | zero => omega
  | succ j =>
    have hj : j + 1 - 1 = j := rfl
    rw [hj]
    ring_nf
    omega

/-- A continuing step strictly decreases the measure, as long as the queue
stays inside the id universe. -/
lemma bfsMeasure_step {st st1 : BFSState}
    (h : bfsStep store center depth maxPapers st = .next st1)
    (hq : ∀ p ∈ st.queue, p.1 ∈ idUniverse store center) :
    bfsMeasure store center st1 < bfsMeasure store center st := by
  obtain ⟨pid, d, rest, hqe, hcap, hbr⟩ := bfsStep_next_cases h
  have hqlen : st.queue.length = rest.length + 1 := by rw [hqe]; simp
  have hpidU : pid ∈ idUniverse store center := hq (pid, d) (hqe ▸ List.mem_cons_self _ _)
  have hsub : idUniverse store center \ (pid :: st.visited).toFinset ⊆
      idUniverse store center \ st.visited.toFinset := by
    refine Finset.sdiff_subset_sdiff (le_refl _) ?_
    rw [List.toFinset_cons]
    exact Finset.subset_insert _ _
  have hle : (idUniverse store center \ (pid :: st.visited).toFinset).card *
        (2 * store.citations.length + 1) ≤
      (idUniverse store center \ st.visited.toFinset).card *
        (2 * store.citations.length + 1) :=
    Nat.mul_le_mul_right _ (Finset.card_le_card hsub)
  rcases hbr with ⟨-, rfl⟩ | ⟨hvis, -, hbr2⟩
  · unfold bfsMeasure
    simp only []
    omega
  · have hmem : pid ∈ idUniverse store center \ st.visited.toFinset :=
      Finset.mem_sdiff.mpr ⟨hpidU, fun hm => hvis (List.mem_toFinset.mp hm)⟩
    have hpos : 1 ≤ (idUniverse store center \ st.visited.toFinset).card :=
      Finset.card_pos.mpr ⟨pid, hmem⟩
    have hcard : (idUniverse store center \ (pid :: st.visited).toFinset).card =
        (idUniverse store center \ st.visited.toFinset).card - 1 := by
      rw [List.toFinset_cons, Finset.sdiff_insert, Finset.card_erase_of_mem hmem]
    rcases hbr2 with ⟨-, rfl⟩ | ⟨paper, -, ⟨-, rfl⟩ | ⟨-, rfl⟩⟩
    · unfold bfsMeasure
      simp only []
      omega
    · unfold bfsMeasure expandState
      simp only [List.length_append]
      have e1 := (length_enqueueCiting_le (pid :: st.visited) d
        (store.citingCitations pid)).trans (length_citingCitations_le store pid)
      have e2 := (length_enqueueCited_le (pid :: st.visited) d
        (store.citedCitations pid)).trans (length_citedCitations_le store pid)
      rw [hcard]
      have hkey := expand_measure_bound
        (idUniverse store center \ st.visited.toFinset).card
        store.citations.length hpos
      omega
    · unfold bfsMeasure leafState
      simp only []
      omega

/-- With fuel exceeding the measure, the loop reaches its exit condition. -/
lemma bfsLoop_total :
    ∀ (n : Nat) (st : BFSState),
      (∀ p ∈ st.queue, p.1 ∈ idUniverse store center) →
      bfsMeasure store center st < n →
      ∃ st', bfsLoop store center depth maxPapers n st = some st' := by
  intro n
  induction n with
  | zero => intro st _ hm; omega
  | succ k ih =>
    intro st hq hm
    rw [bfsLoop]
    rcases hs : bfsStep store center depth maxPapers st with s | s
    · exact ⟨s, rfl⟩
    · have hdec := bfsMeasure_step hs hq
      exact ih s (queue_universe_step hs hq) (by omega)

/-- The fuel used by `bfsRun` always suffices: the loop reaches its exit
condition on every store and every input. -/
lemma bfsRun_isSome (store : Store) (center : String) (depth maxPapers : Nat) :
    ∃ st', bfsRun store center depth maxPapers = some st' := by
  apply bfsLoop_total
  · intro p hp
    simp only [initialState, List.mem_singleton] at hp
    subst hp
    exact mem_idUniverse_center
  · unfold bfsMeasure bfsFuel initialState
    simp only [List.toFinset_nil, Finset.sdiff_empty, List.length_singleton]
    have h1 := card_idUniverse_le store center
    have h2 := Nat.mul_le_mul_right (2 * store.citations.length + 1) h1
    have h3 : (2 * store.citations.length + 1) * (2 * store.citations.length + 1)
        ≤ (2 * store.citations.length + 2) * (2 * store.citations.length + 1) :=
      Nat.mul_le_mul_right _ (by omega)
    omega

end BFSLemmas

/-- Destructor for a successful `build_citation_network` call: the center
lookup succeeded, the loop finished, and the network packages the final
state. -/
lemma build_ok_elim {store : Store} {center : String} {depth maxPapers : Nat}
    {net : CitationNetwork}
    (h : build_citation_network store center depth maxPapers = some (.ok net)) :
    (∃ p, store.findPaper center = some p) ∧
    ∃ st', bfsRun store center depth maxPapers = some st' ∧
      net = ⟨st'.nodes, st'.edges, center, depth,
             st'.nodes.length, st'.edges.length⟩ := by
  unfold build_citation_network at h
  cases hf : store.findPaper center <;> rw [hf] at h
  · simp at h
  · cases hr : bfsRun store center depth maxPapers <;> rw [hr] at h
    · simp at h
    · rename_i st'
      simp only [Option.map_some', Option.some.injEq, BuildResult.ok.injEq] at h
      exact ⟨⟨_, rfl⟩, st', rfl, h.symm⟩

/-! ### Claim C4: node-count and depth bounds -/

/-- C4: for every citation store, every center paper, every depth and every
max_papers ≥ 1, a network returned by `build_citation_network` has at most
`max_papers` nodes and every returned node has discovered depth within the
`depth` limit. -/
theorem network_bounds (store : Store) (center : String) (depth maxPapers : Nat)
    (_hmax : 1 ≤ maxPapers) (net : CitationNetwork)
    (h : build_citation_network store center depth maxPapers = some (.ok net)) :
    net.total_papers ≤ maxPapers ∧ net.nodes.length ≤ maxPapers ∧
      ∀ n ∈ net.nodes, n.depth ≤ depth := by
  obtain ⟨-, st', hr, rfl⟩ := build_ok_elim h
  unfold bfsRun at hr
  have hinv := bfsLoop_invariant
    (fun st => st.nodes.length ≤ maxPapers ∧ ∀ n ∈ st.nodes, n.depth ≤ depth)
    ?_ (bfsFuel store) (initialState center) st'
    ⟨by simp [initialState], by simp [initialState]⟩ hr
  · exact ⟨hinv.1, hinv.1, hinv.2⟩
  · intro st st1 hs hP
    obtain ⟨pid, d, rest, hqe, hcap, hbr⟩ := bfsStep_next_cases hs
    rcases hbr with ⟨-, rfl⟩ | ⟨-, hd, ⟨-, rfl⟩ | ⟨paper, -, ⟨hlt, rfl⟩ | ⟨hdeq, rfl⟩⟩⟩
    · exact hP
    · exact hP
    · refine ⟨?_, ?_⟩
      · unfold expandState
        simp only [List.length_append, List.length_singleton]
        omega
      · intro n hn
        unfold expandState at hn
        simp only [List.mem_append, List.mem_singleton] at hn
        rcases hn with hn | rfl
        · exact hP.2 n hn
        · exact hd
    · refine ⟨?_, ?_⟩
      · unfold leafState
        simp only [List.length_append, List.length_singleton]
        omega
      · intro n hn
        unfold leafState at hn
        simp only [List.mem_append, List.mem_singleton] at hn
        rcases hn with hn | rfl
        · exact hP.2 n hn
        · exact hd

/-- Witness for C4 at a concrete store and inputs. -/
theorem network_bounds_witness :
    build_citation_network storeScenario "a" 2 10 = some (.ok networkScenario) ∧
    (networkScenario.total_papers ≤ 10 ∧ networkScenario.nodes.length ≤ 10 ∧
      ∀ n ∈ networkScenario.nodes, n.depth ≤ 2) :=
  ⟨by decide,
   network_bounds storeScenario "a" 2 10 (by decide) networkScenario (by decide)⟩

/-! ### Claim C9: termination of the BFS -/

/-- C9: on every finite citation store and all inputs, `build_citation_network`
terminates: the loop reaches its exit condition within the fuel bound, and
each paper id is marked visited at most once (the visited list stays
duplicate-free), even in the presence of citation cycles or self-citations. -/
theorem bfs_terminates (store : Store) (center : String) (depth maxPapers : Nat)
    (_hmax : 1 ≤ maxPapers) :
    (build_citation_network store center depth maxPapers).isSome ∧
    ∃ st, bfsRun store center depth maxPapers = some st ∧ st.visited.Nodup := by
  obtain ⟨st', hr⟩ := bfsRun_isSome store center depth maxPapers
  constructor
  · unfold build_citation_network
    cases hf : store.findPaper center
    · simp
    · rw [hr]
      simp
  · refine ⟨st', hr, ?_⟩
    unfold bfsRun at hr
    refine bfsLoop_invariant (fun st => st.visited.Nodup) ?_
      (bfsFuel store) (initialState center) st' (by simp [initialState]) hr
    intro st st1 hs hP
    obtain ⟨pid, d, rest, hqe, hcap, hbr⟩ := bfsStep_next_cases hs
    rcases hbr with ⟨-, rfl⟩ | ⟨hvis, -, ⟨-, rfl⟩ | ⟨paper, -, ⟨-, rfl⟩ | ⟨-, rfl⟩⟩⟩
    · exact hP
    · exact List.nodup_cons.mpr ⟨hvis, hP⟩
    · exact List.nodup_cons.mpr ⟨hvis, hP⟩
    · exact List.nodup_cons.mpr ⟨hvis, hP⟩

/-- Witness for C9 at a concrete store (which contains a citation, so the
loop actually expands). -/
theorem bfs_terminates_witness :
    (build_citation_network storeAB "a" 2 10).isSome ∧
    ∃ st, bfsRun storeAB "a" 2 10 = some st ∧ st.visited.Nodup :=
  bfs_terminates storeAB "a" 2 10 (by decide)

/-! ### Claim C1: edge closure -/

/-- One continuing step preserves the closure invariant, provided every
citation endpoint in the store references an existing paper. -/
lemma closureInv_step {store : Store} {center : String} {depth maxPapers : Nat}
    {st stn : BFSState}
    (hends : ∀ c ∈ store.citations,
      (store.findPaper c.citing_paper_id).isSome ∧
      (store.findPaper c.cited_paper_id).isSome)
    (hs : bfsStep store center depth maxPapers st = .next stn)
    (hI : closureInv store depth st) : closureInv store depth stn := by
  obtain ⟨hq, hv, he⟩ := hI
  obtain ⟨pid, d, rest, hqe, hcap, hbr⟩ := bfsStep_next_cases hs
  have hqhead := hq (pid, d) (hqe ▸ List.mem_cons_self _ _)
  have hqrest : ∀ pd ∈ rest, (store.findPaper pd.1).isSome ∧ pd.2 ≤ depth :=
    fun pd hpd => hq pd (hqe ▸ List.mem_cons_of_mem _ hpd)
  rcases hbr with ⟨hguard, rfl⟩ |
    ⟨hvis, hd, ⟨hfind, rfl⟩ | ⟨paper, hfind, ⟨hlt, rfl⟩ | ⟨hdeq, rfl⟩⟩⟩
  · -- the dequeued id is already visited (the depth guard cannot fire)
    have hpidvis : pid ∈ st.visited := by
      rcases hguard with hg | hg
      · exact hg
      · exact absurd hg (by have := hqhead.2; omega)
    have hep : ∀ x, ((∃ n ∈ st.nodes, n.id = x) ∨ ∃ dq, (x, dq) ∈ st.queue) →
        ((∃ n ∈ st.nodes, n.id = x) ∨ ∃ dq, (x, dq) ∈ rest) := by
      intro x hx
      rcases hx with hx | ⟨dq, hdq⟩
      · exact Or.inl hx
      · rw [hqe] at hdq
        rcases List.mem_cons.mp hdq with heq | hdq2
        · cases heq
          exact Or.inl (hv _ hpidvis)
        · exact Or.inr ⟨dq, hdq2⟩
    exact ⟨hqrest, hv, fun ed hed => ⟨hep _ (he ed hed).1, hep _ (he ed hed).2⟩⟩
  · -- the paper row of a queued id is always found
    exact absurd hqhead.1 (by simp [hfind])
  · -- expansion
    unfold expandState
    have hpidnode : ∃ n ∈ st.nodes ++ [mkNode paper pid center d], n.id = pid :=
      ⟨mkNode paper pid center d,
       List.mem_append.mpr (Or.inr (List.mem_singleton.mpr rfl)), rfl⟩
    have hvis' : ∀ x ∈ pid :: st.visited,
        ∃ n ∈ st.nodes ++ [mkNode paper pid center d], n.id = x := by
      intro x hx
      rcases List.mem_cons.mp hx with rfl | hold
      · exact hpidnode
      · obtain ⟨n, hn, hid⟩ := hv x hold
        exact ⟨n, List.mem_append.mpr (Or.inl hn), hid⟩
    refine ⟨?_, hvis', ?_⟩
    · intro pd hpd
      simp only [] at hpd
      rcases List.mem_append.mp hpd with hpd1 | hpdD
      · rcases List.mem_append.mp hpd1 with hr | hC
        · exact hqrest pd hr
        · obtain ⟨c, hc, rfl⟩ := mem_enqueueCiting hC
          exact ⟨(hends c (mem_citingCitations hc)).1, by omega⟩
      · obtain ⟨c, hc, rfl⟩ := mem_enqueueCited hpdD
        exact ⟨(hends c (mem_citedCitations hc)).2, by omega⟩
    · have hep : ∀ x, ((∃ n ∈ st.nodes, n.id = x) ∨ ∃ dq, (x, dq) ∈ st.queue) →
          ((∃ n ∈ st.nodes ++ [mkNode paper pid center d], n.id = x) ∨
            ∃ dq, (x, dq) ∈ rest ++
              enqueueCiting (pid :: st.visited) d (store.citingCitations pid) ++
              enqueueCited (pid :: st.visited) d (store.citedCitations pid)) := by
        intro x hx
        rcases hx with ⟨n, hn, hid⟩ | ⟨dq, hdq⟩
        · exact Or.inl ⟨n, List.mem_append.mpr (Or.inl hn), hid⟩
        · rw [hqe] at hdq
          rcases List.mem_cons.mp hdq with heq | hdq2
          · cases heq
            exact Or.inl hpidnode
          · exact Or.inr ⟨dq, List.mem_append.mpr
              (Or.inl (List.mem_append.mpr (Or.inl hdq2)))⟩
      intro ed hed
      simp only [] at hed
      rcases List.mem_append.mp hed with hed1 | hedD
      · rcases List.mem_append.mp hed1 with hold | hedC
        · exact ⟨hep _ (he ed hold).1, hep _ (he ed hold).2⟩
        · unfold citingEdges at hedC
          obtain ⟨c, hc, rfl⟩ := List.mem_map.mp hedC
          constructor
          · by_cases hm : c.citing_paper_id ∈ pid :: st.visited
            · exact Or.inl (hvis' c.citing_paper_id hm)
            · refine Or.inr ⟨d + 1, List.mem_append.mpr
                (Or.inl (List.mem_append.mpr (Or.inr ?_)))⟩
              unfold enqueueCiting
              exact List.mem_map.mpr
                ⟨c, List.mem_filter.mpr ⟨hc, by simpa using hm⟩, rfl⟩
          · exact Or.inl hpidnode
      · unfold citedEdges at hedD
        obtain ⟨c, hc, rfl⟩ := List.mem_map.mp hedD
        constructor
        · exact Or.inl hpidnode
        · by_cases hm : c.cited_paper_id ∈ pid :: st.visited
          · exact Or.inl (hvis' c.cited_paper_id hm)
          · refine Or.inr ⟨d + 1, List.mem_append.mpr (Or.inr ?_)⟩
            unfold enqueueCited
            exact List.mem_map.mpr
              ⟨c, List.mem_filter.mpr ⟨hc, by simpa using hm⟩, rfl⟩
  · -- node added at the depth limit, no expansion
    unfold leafState
    have hpidnode : ∃ n ∈ st.nodes ++ [mkNode paper pid center d], n.id = pid :=
      ⟨mkNode paper pid center d,
       List.mem_append.mpr (Or.inr (List.mem_singleton.mpr rfl)), rfl⟩
    have hvis' : ∀ x ∈ pid :: st.visited,
        ∃ n ∈ st.nodes ++ [mkNode paper pid center d], n.id = x := by
      intro x hx
      rcases List.mem_cons.mp hx with rfl | hold
      · exact hpidnode
      · obtain ⟨n, hn, hid⟩ := hv x hold
        exact ⟨n, List.mem_append.mpr (Or.inl hn), hid⟩
    have hep : ∀ x, ((∃ n ∈ st.nodes, n.id = x) ∨ ∃ dq, (x, dq) ∈ st.queue) →
        ((∃ n ∈ st.nodes ++ [mkNode paper pid center d], n.id = x) ∨
          ∃ dq, (x, dq) ∈ rest) := by
      intro x hx
      rcases hx with ⟨n, hn, hid⟩ | ⟨dq, hdq⟩
      · exact Or.inl ⟨n, List.mem_append.mpr (Or.inl hn), hid⟩
      · rw [hqe] at hdq
        rcases List.mem_cons.mp hdq with heq | hdq2
        · cases heq
          exact Or.inl hpidnode
        · exact Or.inr ⟨dq, hdq2⟩
    exact ⟨hqrest, hvis', fun ed hed => ⟨hep _ (he ed hed).1, hep _ (he ed hed).2⟩⟩

/-- Counterexample to C1 as stated: on the store with papers `a`, `b` and the
single citation `b → a`, the call `build_citation_network("a", depth=1,
max_papers=1)` emits the edge `b → a` while expanding `a`, then stops at the
node cap, so the edge's source `b` is not among the returned nodes. -/
theorem network_closure_counterexample :
    build_citation_network storeAB "a" 1 1 =
      some (.ok { nodes := [testNode "a" true 0], edges := [testEdge "b" "a"]
                  center_paper_id := "a", depth := 1
                  total_papers := 1, total_citations := 1 }) ∧
    ¬ (∀ e ∈ ([testEdge "b" "a"] : List EdgeData),
        (∃ n ∈ ([testNode "a" true 0] : List NodeData), n.id = e.source) ∧
        (∃ n ∈ ([testNode "a" true 0] : List NodeData), n.id = e.target)) := by
  constructor
  · decide
  · decide

/-- C1 amended: the closure property holds under two extra conditions the
code actually needs — every citation endpoint in the store references an
existing paper row, and the returned network did not hit the `max_papers`
cap (so the queue was fully drained). -/
theorem network_closure_amended (store : Store) (center : String)
    (depth maxPapers : Nat) (_hmax : 1 ≤ maxPapers)
    (hends : ∀ c ∈ store.citations,
      (store.findPaper c.citing_paper_id).isSome ∧
      (store.findPaper c.cited_paper_id).isSome)
    (net : CitationNetwork)
    (h : build_citation_network store center depth maxPapers = some (.ok net))
    (hcap : net.total_papers < maxPapers) :
    ∀ e ∈ net.edges, (∃ n ∈ net.nodes, n.id = e.source) ∧
      (∃ n ∈ net.nodes, n.id = e.target) := by
  obtain ⟨⟨p, hfp⟩, st', hr, rfl⟩ := build_ok_elim h
  have hcap' : st'.nodes.length < maxPapers := hcap
  unfold bfsRun at hr
  have hqempty : st'.queue = [] := by
    rcases bfsLoop_final _ _ _ hr with h1 | h2
    · exact h1
    · omega
  have hinv := bfsLoop_invariant (closureInv store depth)
    (fun st stn hs hI => closureInv_step hends hs hI)
    (bfsFuel store) (initialState center) st' ?_ hr
  · obtain ⟨-, -, he⟩ := hinv
    intro e hed
    obtain ⟨h1, h2⟩ := he e hed
    constructor
    · rcases h1 with h1 | ⟨dq, hdq⟩
      · exact h1
      · rw [hqempty] at hdq
        cases hdq
    · rcases h2 with h2 | ⟨dq, hdq⟩
      · exact h2
      · rw [hqempty] at hdq
        cases hdq
  · refine ⟨?_, ?_, ?_⟩
    · intro pd hpd
      simp only [initialState, List.mem_singleton] at hpd
      subst hpd
      exact ⟨by simp [hfp], Nat.zero_le _⟩
    · intro q hq
      simp [initialState] at hq
    · intro ed hed
      simp [initialState] at hed

/-- Witness for the amended C1 at a concrete store: the scenario store, whose
citation endpoints all exist and whose traversal (4 nodes) stays below the
cap of 10. -/
theorem network_closure_amended_witness :
    (∃ n ∈ networkScenario.nodes, n.id = (testEdge "b" "a").source) ∧
    (∃ n ∈ networkScenario.nodes, n.id = (testEdge "b" "a").target) :=
  network_closure_amended storeScenario "a" 2 10 (by decide) (by decide)
    networkScenario (by decide) (by decide) (testEdge "b" "a") (by decide)

/-! ### Claim C5: the center node -/

/-- In a node list whose `is_center` flags agree with `id == center`, whose
ids are duplicate-free, and which contains a center node, the `is_center`
filter selects exactly one node. -/
lemma filter_center_length {center : String} {l : List NodeData}
    (ha : ∀ n ∈ l, n.is_center = (n.id == center))
    (hnd : (l.map NodeData.id).Nodup)
    (hf : ∃ n ∈ l, n.id = center) :
    (l.filter (fun n => n.is_center)).length = 1 := by
  induction l with
  | nil => obtain ⟨n, hn, -⟩ := hf; cases hn
  | cons x t ih =>
    have hndt : (t.map NodeData.id).Nodup := (List.nodup_cons.mp hnd).2
    have hxid : x.id ∉ t.map NodeData.id := (List.nodup_cons.mp hnd).1
    by_cases hx : x.is_center = true
    · have hxc : x.id = center :=
        beq_iff_eq.mp ((ha x (List.mem_cons_self x t)) ▸ hx)
      have htnil : t.filter (fun n => n.is_center) = [] := by
        rw [List.filter_eq_nil_iff]
        intro n hn hcn
        have hnc : n.id = center :=
          beq_iff_eq.mp ((ha n (List.mem_cons_of_mem x hn)) ▸ hcn)
        exact hxid (hxc ▸ hnc ▸ List.mem_map_of_mem NodeData.id hn)
      rw [List.filter_cons_of_pos hx, htnil]
      rfl
    · have hxne : x.id ≠ center := by
        intro hxc
        exact hx ((ha x (List.mem_cons_self x t)).symm ▸ beq_iff_eq.mpr hxc)
      obtain ⟨n, hn, hnc⟩ := hf
      rcases List.mem_cons.mp hn with rfl | hnt
      · exact absurd hnc hxne
      · rw [List.filter_cons_of_neg (by simpa using hx)]
        exact ih (fun m hm => ha m (List.mem_cons_of_mem x hm)) hndt ⟨n, hnt, hnc⟩

/-- The first iteration of the loop processes the center: it adds the center
node at depth 0 and marks the center visited. -/
lemma bfsStep_initial {store : Store} {center : String} {depth maxPapers : Nat}
    {p : Paper} (hmax : 1 ≤ maxPapers) (hf : store.findPaper center = some p) :
    bfsStep store center depth maxPapers (initialState center) =
      .next (if 0 < depth
             then expandState store center (initialState center) center 0 [] p
             else leafState center (initialState center) center 0 [] p) := by
  unfold bfsStep initialState
  simp only [List.length_nil, List.not_mem_nil, false_or]
  rw [if_neg (by omega), if_neg (by omega), hf]
  split
  · rename_i heq
    exact absurd heq (by simp)
  · rename_i paper heq
    injection heq with heq2
    subst heq2
    by_cases hd : 0 < depth
    · rw [if_pos hd, if_pos hd]
    · rw [if_neg hd, if_neg hd]

/-- C5: every successful `build_citation_network(center, depth, max_papers)`
call with max_papers ≥ 1 returns exactly one node flagged `is_center`, and
that node has id `center` and discovered depth 0. -/
theorem network_center_unique (store : Store) (center : String)
    (depth maxPapers : Nat) (hmax : 1 ≤ maxPapers) (net : CitationNetwork)
    (h : build_citation_network store center depth maxPapers = some (.ok net)) :
    (net.nodes.filter (fun n => n.is_center)).length = 1 ∧
    ∀ n ∈ net.nodes, n.is_center = true → n.id = center ∧ n.depth = 0 := by
  obtain ⟨⟨p, hfp⟩, st', hr, rfl⟩ := build_ok_elim h
  unfold bfsRun at hr
  obtain ⟨f, hfuel⟩ : ∃ f, bfsFuel store = f + 1 := ⟨bfsFuel store - 1, by
    unfold bfsFuel; omega⟩
  rw [hfuel, bfsLoop, bfsStep_initial hmax hfp] at hr
  set st1 := if 0 < depth
      then expandState store center (initialState center) center 0 [] p
      else leafState center (initialState center) center 0 [] p with hst1
  have hP1 : (∀ n ∈ st1.nodes, n.is_center = (n.id == center)) ∧
      center ∈ st1.visited ∧ (∀ n ∈ st1.nodes, n.id ∈ st1.visited) ∧
      (st1.nodes.map NodeData.id).Nodup ∧
      ∃ n ∈ st1.nodes, n.id = center ∧ n.depth = 0 := by
    rw [hst1]
    split <;>
      simp [expandState, leafState, initialState, mkNode]
  have hinv := bfsLoop_invariant
    (fun st => (∀ n ∈ st.nodes, n.is_center = (n.id == center)) ∧
      center ∈ st.visited ∧ (∀ n ∈ st.nodes, n.id ∈ st.visited) ∧
      (st.nodes.map NodeData.id).Nodup ∧
      ∃ n ∈ st.nodes, n.id = center ∧ n.depth = 0)
    ?_ f st1 st' hP1 hr
  · obtain ⟨ha, -, -, hnd, n0, hn0, hn0c, hn0d⟩ := hinv
    constructor
    · exact filter_center_length ha hnd ⟨n0, hn0, hn0c⟩
    · intro n hn hcn
      have hnc : n.id = center := beq_iff_eq.mp ((ha n hn) ▸ hcn)
      refine ⟨hnc, ?_⟩
      have : n = n0 :=
        List.inj_on_of_nodup_map hnd hn hn0 (hnc.trans hn0c.symm)
      rw [this, hn0d]
  · intro st stn hs hP
    obtain ⟨ha, hc, he, hnd, hex⟩ := hP
    obtain ⟨pid, d, rest, hqe, hcap, hbr⟩ := bfsStep_next_cases hs
    rcases hbr with ⟨-, rfl⟩ | ⟨hvis, -, ⟨-, rfl⟩ | ⟨paper, -, ⟨-, rfl⟩ | ⟨-, rfl⟩⟩⟩
    · exact ⟨ha, hc, he, hnd, hex⟩
    · exact ⟨ha, List.mem_cons_of_mem _ hc,
        fun n hn => List.mem_cons_of_mem _ (he n hn), hnd, hex⟩
    · refine ⟨?_, List.mem_cons_of_mem _ hc, ?_, ?_, ?_⟩
      · intro n hn
        unfold expandState at hn
        simp only [List.mem_append, List.mem_singleton] at hn
        rcases hn with hn | rfl
        · exact ha n hn
        · rfl
      · intro n hn
        unfold expandState at hn
        simp only [List.mem_append, List.mem_singleton] at hn
        unfold expandState
        simp only []
        rcases hn with hn | rfl
        · exact List.mem_cons_of_mem _ (he n hn)
        · exact List.mem_cons_self _ _
      · unfold expandState
        simp only [List.map_append]
        rw [List.nodup_append]
        refine ⟨hnd, by simp [mkNode], ?_⟩
        intro x hx hx2
        simp only [List.map_cons, List.map_nil, List.mem_singleton, mkNode] at hx2
        obtain ⟨n, hn, rfl⟩ := List.mem_map.mp hx
        exact hvis (hx2 ▸ he n hn)
      · obtain ⟨n, hn, hn1, hn2⟩ := hex
        refine ⟨n, ?_, hn1, hn2⟩
        unfold expandState
        simp only [List.mem_append]
        exact Or.inl hn
    · refine ⟨?_, List.mem_cons_of_mem _ hc, ?_, ?_, ?_⟩
      · intro n hn
        unfold leafState at hn
        simp only [List.mem_append, List.mem_singleton] at hn
        rcases hn with hn | rfl
        · exact ha n hn
        · rfl
      · intro n hn
        unfold leafState at hn
        simp only [List.mem_append, List.mem_singleton] at hn
        unfold leafState
        simp only []
        rcases hn with hn | rfl
        · exact List.mem_cons_of_mem _ (he n hn)
        · exact List.mem_cons_self _ _
      · unfold leafState
        simp only [List.map_append]
        rw [List.nodup_append]
        refine ⟨hnd, by simp [mkNode], ?_⟩
        intro x hx hx2
        simp only [List.map_cons, List.map_nil, List.mem_singleton, mkNode] at hx2
        obtain ⟨n, hn, rfl⟩ := List.mem_map.mp hx
        exact hvis (hx2 ▸ he n hn)
      · obtain ⟨n, hn, hn1, hn2⟩ := hex
        refine ⟨n, ?_, hn1, hn2⟩
        unfold leafState
        simp only [List.mem_append]
        exact Or.inl hn

/-! ### Claim C2: the spec scenario -/

/-- C2: on the scenario store (paper `a` cited by `b` and `c`; `b` cited by
`d`), `build_citation_network("a", depth=2, max_papers=10)` returns exactly
the nodes {a at depth 0 (center), b at 1, c at 1, d at 2} and exactly the
edge set {b→a, c→a, d→b}. -/
theorem scenario_network_exact :
    build_citation_network storeScenario "a" 2 10 = some (.ok networkScenario) ∧
    (networkScenario.nodes.map (fun n => (n.id, n.depth, n.is_center))).toFinset =
      ({("a", 0, true), ("b", 1, false), ("c", 1, false), ("d", 2, false)} :
        Finset (String × Nat × Bool)) ∧
    networkScenario.nodes.length = 4 ∧
    (networkScenario.edges.map (fun e => (e.source, e.target))).toFinset =
      ({("b", "a"), ("c", "a"), ("d", "b")} : Finset (String × String)) := by
  refine ⟨by decide, by decide, by decide, by decide⟩

/-! ### Claim C10: duplicate edge emission -/

/-- C10: on the store with the single citation record `b → a` and both
endpoints expanded strictly below the depth limit, the returned edge list
contains the `(b, a)` edge twice — once emitted while expanding `a` (cited
side) and once while expanding `b` (citing side) — so `total_citations` = 2
exceeds the single traversed citation record. -/
theorem duplicate_edge_emission :
    build_citation_network storeAB "a" 2 10 =
      some (.ok { nodes := [testNode "a" true 0, testNode "b" false 1]
                  edges := [testEdge "b" "a", testEdge "b" "a"]
                  center_paper_id := "a", depth := 2
                  total_papers := 2, total_citations := 2 }) ∧
    storeAB.citations.length = 1 ∧ storeAB.citations.length < 2 := by
  refine ⟨by decide, by decide, by decide⟩

/-! ### Claim C8: determinism modulo store order -/

/-- Expansion depends on the store only through the two citation queries. -/
lemma expandState_congr {s1 s2 : Store} (center : String) (st : BFSState)
    (pid : String) (d : Nat) (rest : List (String × Nat)) (paper : Paper)
    (h2 : s1.citingCitations pid = s2.citingCitations pid)
    (h3 : s1.citedCitations pid = s2.citedCitations pid) :
    expandState s1 center st pid d rest paper =
      expandState s2 center st pid d rest paper := by
  unfold expandState
  rw [h2, h3]

/-- One loop iteration depends on the store only through the three queries. -/
lemma bfsStep_congr {s1 s2 : Store} {center : String} {depth maxPapers : Nat}
    (h1 : ∀ pid, s1.findPaper pid = s2.findPaper pid)
    (h2 : ∀ pid, s1.citingCitations pid = s2.citingCitations pid)
    (h3 : ∀ pid, s1.citedCitations pid = s2.citedCitations pid)
    (st : BFSState) :
    bfsStep s1 center depth maxPapers st = bfsStep s2 center depth maxPapers st := by
  unfold bfsStep
  cases hq : st.queue with
  | nil => rfl
  | cons head rest =>
    obtain ⟨pid, d⟩ := head
    simp only [h1 pid, expandState_congr center st pid d rest _ (h2 pid) (h3 pid)]

/-- The whole loop depends on the store only through the three queries. -/
lemma bfsLoop_congr {s1 s2 : Store} {center : String} {depth maxPapers : Nat}
    (h1 : ∀ pid, s1.findPaper pid = s2.findPaper pid)
    (h2 : ∀ pid, s1.citingCitations pid = s2.citingCitations pid)
    (h3 : ∀ pid, s1.citedCitations pid = s2.citedCitations pid) :
    ∀ fuel st, bfsLoop s1 center depth maxPapers fuel st =
      bfsLoop s2 center depth maxPapers fuel st := by
  intro fuel
  induction fuel with
  | zero => intro st; rfl
  | succ n ih =>
    intro st
    rw [bfsLoop, bfsLoop, bfsStep_congr h1 h2 h3 st]
    cases bfsStep s2 center depth maxPapers st with
    | halt s => rfl
    | next s => exact ih s

/-- C8: two calls with identical center, depth and max_papers against stores
whose query functions return the same results in the same order produce the
same result — in particular the same node set and edge set. -/
theorem network_deterministic (s1 s2 : Store) (center : String)
    (depth maxPapers : Nat)
    (h1 : ∀ pid, s1.findPaper pid = s2.findPaper pid)
    (h2 : ∀ pid, s1.citingCitations pid = s2.citingCitations pid)
    (h3 : ∀ pid, s1.citedCitations pid = s2.citedCitations pid) :
    build_citation_network s1 center depth maxPapers =
      build_citation_network s2 center depth maxPapers ∧
    ∀ n1 n2, build_citation_network s1 center depth maxPapers = some (.ok n1) →
      build_citation_network s2 center depth maxPapers = some (.ok n2) →
      n1.nodes.toFinset = n2.nodes.toFinset ∧
      n1.edges.toFinset = n2.edges.toFinset := by
  obtain ⟨st1, hr1⟩ := bfsRun_isSome s1 center depth maxPapers
  obtain ⟨st2, hr2⟩ := bfsRun_isSome s2 center depth maxPapers
  have hr1u : bfsLoop s1 center depth maxPapers (bfsFuel s1) (initialState center) =
      some st1 := hr1
  have hr2u : bfsLoop s2 center depth maxPapers (bfsFuel s2) (initialState center) =
      some st2 := hr2
  have hm1 := bfsLoop_mono _ _ (le_max_left (bfsFuel s1) (bfsFuel s2)) hr1u
  have hm2 := bfsLoop_mono _ _ (le_max_right (bfsFuel s1) (bfsFuel s2)) hr2u
  rw [bfsLoop_congr h1 h2 h3 _ _] at hm1
  have hst : st1 = st2 := Option.some.inj (hm1.symm.trans hm2)
  have hbeq : build_citation_network s1 center depth maxPapers =
      build_citation_network s2 center depth maxPapers := by
    unfold build_citation_network
    rw [h1 center]
    cases s2.findPaper center with
    | none => rfl
    | some p =>
      unfold bfsRun at hr1 hr2 ⊢
      rw [hr1u, hr2u, hst]
  refine ⟨hbeq, ?_⟩
  intro n1 n2 hb1 hb2
  rw [hbeq, hb2] at hb1
  simp only [Option.some.injEq, BuildResult.ok.injEq] at hb1
  subst hb1
  exact ⟨rfl, rfl⟩

/-- Witness for C8: the same citation table behind two differently ordered
`papers` tables answers every query identically, so the two builds agree. -/
theorem network_deterministic_witness :
    build_citation_network storeAB "a" 2 10 =
      build_citation_network storeBA "a" 2 10 := by
  refine (network_deterministic storeAB storeBA "a" 2 10 ?_ ?_ ?_).1
  · intro pid
    by_cases ha : (("a" : String) == pid) = true <;>
      by_cases hb : (("b" : String) == pid) = true
    · have hpa : ("a" : String) = pid := beq_iff_eq.mp ha
      have hpb : ("b" : String) = pid := beq_iff_eq.mp hb
      exact absurd (hpa.trans hpb.symm) (by decide)
    · simp [Store.findPaper, storeAB, storeBA, testPaper, List.find?, ha, hb]
    · simp [Store.findPaper, storeAB, storeBA, testPaper, List.find?, ha, hb]
    · simp [Store.findPaper, storeAB, storeBA, testPaper, List.find?, ha, hb]
  · intro pid
    rfl
  · intro pid
    rfl

/-- Witness for C5 at a concrete store and inputs. -/
theorem network_center_unique_witness :
    (networkScenario.nodes.filter (fun n => n.is_center)).length = 1 ∧
    ∀ n ∈ networkScenario.nodes, n.is_center = true →
      n.id = "a" ∧ n.depth = 0 :=
  network_center_unique storeScenario "a" 2 10 (by decide) networkScenario
    (by decide)

/-! ### Influence calculator lemmas (claims C3, C6, C7) -/

/-- The executable conditional agrees with the order-theoretic minimum. -/
lemma pymin_eq_min (a b : ℚ) : pymin a b = min a b := by
  unfold pymin
  split
  · exact (min_eq_left (by assumption)).symm
  · exact (min_eq_right (le_of_not_le (by assumption))).symm

/-- The h-index loop with equal rank accumulators counts the accepted
prefix. -/
lemma hIndexLoop_eq_qualPrefixLen :
    ∀ (l : List Int) (i : Nat), hIndexLoop l i i = i + qualPrefixLen l i := by
  intro l
  induction l with
  | nil => intro i; rfl
  | cons c rest ih =>
    intro i
    unfold hIndexLoop qualPrefixLen
    by_cases hc : ((i : Int) + 1) ≤ c
    · rw [if_pos hc, if_pos hc, ih (i + 1)]
      omega
    · rw [if_neg hc, if_neg hc]
      omega

/-- Every position inside the accepted prefix qualifies. -/
lemma qualPrefixLen_qualifies :
    ∀ (l : List Int) (i j : Nat), j < qualPrefixLen l i →
      ((i : Int) + (j : Int) + 1) ≤ l.getD j 0 := by
  intro l
  induction l with
  | nil => intro i j h; simp [qualPrefixLen] at h
  | cons c rest ih =>
    intro i j h
    unfold qualPrefixLen at h
    by_cases hc : ((i : Int) + 1) ≤ c
    · rw [if_pos hc] at h
      cases j with
      | zero =>
        rw [List.getD_cons_zero]
        omega
      | succ j' =>
        have hih := ih (i + 1) j' (by omega)
        rw [List.getD_cons_succ]
        push_cast at hih ⊢
        omega
    · rw [if_neg hc] at h
      omega

/-- The position right after the accepted prefix fails to qualify. -/
lemma qualPrefixLen_fails :
    ∀ (l : List Int) (i : Nat), qualPrefixLen l i < l.length →
      ¬ ((i : Int) + (qualPrefixLen l i : Int) + 1 ≤
          l.getD (qualPrefixLen l i) 0) := by
  intro l
  induction l with
  | nil => intro i h; simp at h
  | cons c rest ih =>
    intro i h
    unfold qualPrefixLen at h ⊢
    by_cases hc : ((i : Int) + 1) ≤ c
    · rw [if_pos hc] at h ⊢
      rw [List.getD_cons_succ]
      simp only [List.length_cons] at h
      have hih := ih (i + 1) (by omega)
      intro hcon
      apply hih
      push_cast at hcon ⊢
      omega
    · rw [if_neg hc] at h ⊢
      rw [List.getD_cons_zero]
      intro hcon
      apply hc
      push_cast at hcon
      omega

/-- The accepted prefix never exceeds the list. -/
lemma qualPrefixLen_le_length :
    ∀ (l : List Int) (i : Nat), qualPrefixLen l i ≤ l.length := by
  intro l
  induction l with
  | nil => intro i; simp [qualPrefixLen]
  | cons c rest ih =>
    intro i
    unfold qualPrefixLen
    split
    · have := ih (i + 1)
      simp only [List.length_cons]
      omega
    · simp

/-- In a descending-sorted list, later entries are no larger. -/
lemma sorted_getD_anti {l : List Int} (hs : List.Sorted (fun a b => a ≥ b) l)
    {i j : Nat} (hij : i ≤ j) (hj : j < l.length) :
    l.getD j 0 ≤ l.getD i 0 := by
  have hi : i < l.length := Nat.lt_of_le_of_lt hij hj
  rw [List.getD_eq_getElem l 0 hj, List.getD_eq_getElem l 0 hi]
  haveI : IsRefl Int (fun a b => a ≥ b) := ⟨fun a => le_refl a⟩
  have := hs.rel_get_of_le (a := ⟨i, hi⟩) (b := ⟨j, hj⟩) hij
  simpa using this

/-- A member is at most the fold of `max`. -/
lemma le_foldr_max {x : Nat} : ∀ {ns : List Nat}, x ∈ ns → x ≤ ns.foldr max 0 := by
  intro ns
  induction ns with
  | nil => intro h; cases h
  | cons a t ih =>
    intro h
    rcases List.mem_cons.mp h with rfl | h2
    · exact le_max_left _ _
    · exact le_trans (ih h2) (le_max_right _ _)

/-- The fold of `max` is at most any common upper bound. -/
lemma foldr_max_le {H : Nat} : ∀ {ns : List Nat}, (∀ x ∈ ns, x ≤ H) →
    ns.foldr max 0 ≤ H := by
  intro ns
  induction ns with
  | nil => intro _; exact Nat.zero_le _
  | cons a t ih =>
    intro hall
    simp only [List.foldr_cons]
    exact max_le (hall a (List.mem_cons_self _ _))
      (ih (fun x hx => hall x (List.mem_cons_of_mem _ hx)))

/-- On a descending-sorted list the source's h-index loop computes exactly
the spec's "largest 1-based index i with i-th entry ≥ i". -/
lemma hIndexLoop_eq_spec {l : List Int}
    (hs : List.Sorted (fun a b => a ≥ b) l) :
    hIndexLoop l 0 0 = spec_h_index l := by
  have hK := hIndexLoop_eq_qualPrefixLen l 0
  have hKlen : qualPrefixLen l 0 ≤ l.length := qualPrefixLen_le_length l 0
  have hupper : ∀ i ∈ (List.range (l.length + 1)).filter
      (fun (i : Nat) => decide (1 ≤ i ∧ (i : Int) ≤ l.getD (i - 1) 0)),
      i ≤ qualPrefixLen l 0 := by
    intro i hi
    rw [List.mem_filter] at hi
    obtain ⟨hirange, hidec⟩ := hi
    obtain ⟨h1i, hqual⟩ := of_decide_eq_true hidec
    by_contra hKi
    push_neg at hKi
    have hilen : i ≤ l.length := by
      have := List.mem_range.mp hirange
      omega
    have hKlt : qualPrefixLen l 0 < l.length := by omega
    have hfail := qualPrefixLen_fails l 0 hKlt
    have hanti := sorted_getD_anti hs
      (show qualPrefixLen l 0 ≤ i - 1 by omega)
      (show i - 1 < l.length by omega)
    push_cast at hfail
    omega
  unfold spec_h_index
  have hle := foldr_max_le hupper
  rcases Nat.eq_zero_or_pos (qualPrefixLen l 0) with h0 | hpos
  · rw [hK, h0]
    omega
  · have hmem : qualPrefixLen l 0 ∈ (List.range (l.length + 1)).filter
        (fun (i : Nat) => decide (1 ≤ i ∧ (i : Int) ≤ l.getD (i - 1) 0)) := by
      rw [List.mem_filter]
      refine ⟨List.mem_range.mpr (by omega), decide_eq_true ?_⟩
      refine ⟨hpos, ?_⟩
      have hq := qualPrefixLen_qualifies l 0 (qualPrefixLen l 0 - 1) (by omega)
      push_cast at hq ⊢
      omega
    have hge := le_foldr_max hmem
    rw [hK]
    omega

/-- Destructor for a successful run of the `try` body: all four queries
succeeded, and the relevant metric fields are determined by their results. -/
lemma calcBody_elim {db : Db} {pid : String} {m : InfluenceMetrics}
    (h : calcInfluenceBody db pid = .ok m) :
    ∃ paper direct secondOrder citingPapers,
      db.findPaperQ pid = .ok (some paper) ∧
      db.countDirectQ pid = .ok direct ∧
      db.countSecondOrderQ pid = .ok secondOrder ∧
      db.citingPapersQ pid = .ok citingPapers ∧
      m.direct_citations = direct ∧
      m.second_order_citations = secondOrder ∧
      m.h_index =
        hIndexLoop (sortDesc (citingPapers.map (fun p => p.citation_count))) 0 0 ∧
      m.influence_score =
        pymin (((direct : ℚ) * 0.5 + (secondOrder : ℚ) * 0.3 +
          ((hIndexLoop (sortDesc (citingPapers.map (fun p => p.citation_count)))
            0 0 : Nat) : ℚ) * 0.2) / 100) 1.0 := by
  unfold calcInfluenceBody at h
  cases hfp : db.findPaperQ pid <;> rw [hfp] at h
  · cases h
  · rename_i popt
    cases popt with
    | none => cases h
    | some paper =>
      cases hd : db.countDirectQ pid <;> rw [hd] at h
      · cases h
      · rename_i direct
        cases hso : db.countSecondOrderQ pid <;> rw [hso] at h
        · cases h
        · rename_i secondOrder
          cases hcp : db.citingPapersQ pid <;> rw [hcp] at h
          · cases h
          · rename_i citingPapers
            simp only [Except.ok.injEq] at h
            subst h
            exact ⟨paper, direct, secondOrder, citingPapers, rfl, rfl, rfl,
              rfl, rfl, rfl, rfl, rfl⟩

/-! ### Claim C3: error handling of calculate_influence -/

/-- Counterexample to C3 as stated: on an empty store the requested paper does
not exist, yet `calculate_paper_influence` raises nothing — the `except`
clause catches its own `ValueError` and the call returns the empty dict. -/
theorem influence_error_counterexample :
    (Db.ofStore storeEmpty 0).findPaperQ "a" = .ok none ∧
    calculate_paper_influence (Db.ofStore storeEmpty 0) "a" = .emptyDict ∧
    (calculate_paper_influence (Db.ofStore storeEmpty 0) "a").isRaised = false := by
  refine ⟨rfl, by decide, by decide⟩

/-- C3 amended: `calculate_paper_influence` never propagates an error.  A
missing paper or a failing store operation makes the `try` body raise, the
`except Exception` clause catches it, and the caller receives the empty
metrics dict; no partial metrics are returned and no exception escapes. -/
theorem influence_errors_swallowed (db : Db) (pid : String) :
    (db.findPaperQ pid = .ok none →
      calculate_paper_influence db pid = .emptyDict) ∧
    (∀ e, db.findPaperQ pid = .error e →
      calculate_paper_influence db pid = .emptyDict) ∧
    (∀ p e, db.findPaperQ pid = .ok (some p) →
      db.countDirectQ pid = .error e →
      calculate_paper_influence db pid = .emptyDict) ∧
    (∀ p nd e, db.findPaperQ pid = .ok (some p) →
      db.countDirectQ pid = .ok nd →
      db.countSecondOrderQ pid = .error e →
      calculate_paper_influence db pid = .emptyDict) ∧
    (∀ p nd ns e, db.findPaperQ pid = .ok (some p) →
      db.countDirectQ pid = .ok nd →
      db.countSecondOrderQ pid = .ok ns →
      db.citingPapersQ pid = .error e →
      calculate_paper_influence db pid = .emptyDict) ∧
    (calculate_paper_influence db pid).isRaised = false ∧
    (calculate_paper_influence db pid = .emptyDict ∨
      ∃ m, calculate_paper_influence db pid = .metrics m) := by
  refine ⟨?_, ?_, ?_, ?_, ?_, ?_, ?_⟩
  · intro hf
    unfold calculate_paper_influence calcInfluenceBody
    rw [hf]
  · intro e hf
    unfold calculate_paper_influence calcInfluenceBody
    rw [hf]
  · intro p e hf hd
    unfold calculate_paper_influence calcInfluenceBody
    rw [hf, hd]
  · intro p nd e hf hd hso
    unfold calculate_paper_influence calcInfluenceBody
    rw [hf, hd, hso]
  · intro p nd ns e hf hd hso hcp
    unfold calculate_paper_influence calcInfluenceBody
    rw [hf, hd, hso, hcp]
  · unfold calculate_paper_influence
    cases calcInfluenceBody db pid <;> rfl
  · unfold calculate_paper_influence
    cases calcInfluenceBody db pid with
    | error e => exact Or.inl rfl
    | ok m => exact Or.inr ⟨m, rfl⟩

/-- Witness for the amended C3: a store without the paper, and a database
whose first query fails with a connectivity error, both yield the empty
dict. -/
theorem influence_errors_swallowed_witness :
    calculate_paper_influence (Db.ofStore storeEmpty 0) "a" = .emptyDict ∧
    calculate_paper_influence dbBroken "a" = .emptyDict :=
  ⟨(influence_errors_swallowed (Db.ofStore storeEmpty 0) "a").1 rfl,
   (influence_errors_swallowed dbBroken "a").2.1
     (.storeFailure "connection lost") rfl⟩

/-! ### Claim C6: the h-index statistic -/

/-- C6: for every database and paper, the `h_index` field of a successful
`calculate_paper_influence` call equals the spec's description — sort the
direct citers' citation counts descending, take the largest 1-based index `i`
whose `i`-th entry is at least `i` (0 when no index qualifies). -/
theorem h_index_matches_spec (db : Db) (pid : String) (ps : List Paper)
    (m : InfluenceMetrics)
    (hps : db.citingPapersQ pid = .ok ps)
    (h : calculate_paper_influence db pid = .metrics m) :
    m.h_index = spec_h_index (sortDesc (ps.map (fun p => p.citation_count))) := by
  unfold calculate_paper_influence at h
  cases hb : calcInfluenceBody db pid <;> rw [hb] at h
  · cases h
  · rename_i m'
    simp only [InfluenceResult.metrics.injEq] at h
    subst h
    obtain ⟨paper, direct, secondOrder, citingPapers, -, -, -, hcp, -, -, hh, -⟩ :=
      calcBody_elim hb
    rw [hps] at hcp
    simp only [Except.ok.injEq] at hcp
    subst hcp
    rw [hh]
    exact hIndexLoop_eq_spec (by unfold sortDesc; exact List.sorted_insertionSort _ _)

/-- Concrete evaluation: on `storeHIndex` the influence call for `z` yields
`metricsHIndex` (rational arithmetic evaluated by `norm_num`, the rest by
reduction). -/
lemma calcInfluence_storeHIndex :
    calculate_paper_influence (Db.ofStore storeHIndex 0) "z" =
      .metrics metricsHIndex := by
  have hbody : calcInfluenceBody (Db.ofStore storeHIndex 0) "z" =
      .ok metricsHIndex := by
    unfold calcInfluenceBody
    simp [Db.ofStore, Store.findPaper, Store.citingCitations, storeHIndex,
      testPaper, testCitation, metricsHIndex, pymin, sortDesc, hIndexLoop,
      List.find?_cons, List.filter_cons, List.filterMap_cons,
      List.insertionSort, List.orderedInsert]
    norm_num
  unfold calculate_paper_influence
  rw [hbody]

/-- Witness for C6: the spec's own instance — direct-citer counts
[10, 8, 5, 4, 3] give h_index = 4. -/
theorem h_index_matches_spec_witness :
    calculate_paper_influence (Db.ofStore storeHIndex 0) "z" =
      .metrics metricsHIndex ∧
    metricsHIndex.h_index =
      spec_h_index (sortDesc (citersHIndex.map (fun p => p.citation_count))) ∧
    metricsHIndex.h_index = 4 ∧ spec_h_index [10, 8, 5, 4, 3] = 4 :=
  ⟨calcInfluence_storeHIndex,
   h_index_matches_spec (Db.ofStore storeHIndex 0) "z" citersHIndex metricsHIndex
     rfl calcInfluence_storeHIndex,
   by decide, by decide⟩

/-! ### Claim C7: the influence score -/

/-- C7: for every database and paper, the `influence_score` of a successful
`calculate_paper_influence` call equals
`min((0.5·direct + 0.3·second_order + 0.2·h_index)/100, 1.0)` and always lies
in [0, 1], whatever the input magnitudes. -/
theorem influence_score_formula (db : Db) (pid : String) (m : InfluenceMetrics)
    (h : calculate_paper_influence db pid = .metrics m) :
    m.influence_score =
      min (((m.direct_citations : ℚ) * 0.5 + (m.second_order_citations : ℚ) * 0.3 +
        (m.h_index : ℚ) * 0.2) / 100) 1.0 ∧
    0 ≤ m.influence_score ∧ m.influence_score ≤ 1 := by
  unfold calculate_paper_influence at h
  cases hb : calcInfluenceBody db pid <;> rw [hb] at h
  · cases h
  · rename_i m'
    simp only [InfluenceResult.metrics.injEq] at h
    subst h
    obtain ⟨paper, direct, secondOrder, citingPapers, -, -, -, -, hdc, hsoc, hh,
      hscore⟩ := calcBody_elim hb
    refine ⟨?_, ?_, ?_⟩
    · rw [hscore, pymin_eq_min, hdc, hsoc, hh]
    · rw [hscore, pymin_eq_min]
      refine le_min ?_ (by norm_num)
      positivity
    · rw [hscore, pymin_eq_min]
      calc min (((direct : ℚ) * 0.5 + (secondOrder : ℚ) * 0.3 +
            ((hIndexLoop (sortDesc (citingPapers.map
              (fun p => p.citation_count))) 0 0 : Nat) : ℚ) * 0.2) / 100) 1.0
          ≤ (1.0 : ℚ) := min_le_right _ _
        _ = 1 := by norm_num

/-- Witness for C7 at a concrete database. -/
theorem influence_score_formula_witness :
    metricsHIndex.influence_score =
      min (((metricsHIndex.direct_citations : ℚ) * 0.5 +
        (metricsHIndex.second_order_citations : ℚ) * 0.3 +
        (metricsHIndex.h_index : ℚ) * 0.2) / 100) 1.0 ∧
    0 ≤ metricsHIndex.influence_score ∧ metricsHIndex.influence_score ≤ 1 :=
  influence_score_formula (Db.ofStore storeHIndex 0) "z" metricsHIndex
    calcInfluence_storeHIndex

end AiraBackend
